import Mathlib

/-!
Verification of the PalmMind retrieval-augmented query pipeline.

The Python services under `app/services/` (chunking, embeddings,
vector_store, chat_memory, rag_engine) are shallowly embedded below.
Python strings are modelled as lists of Unicode code points (`List Char`),
matching Python's code-point based `len`, slicing and iteration; external
backends (Cohere client, Qdrant client, Redis, the sentence-transformer
model) are modelled as explicit parameters carrying the outcome of the
awaited call, so that both the success and the exception path of each
`try/except` in the source are represented.
-/

namespace PalmMind

/-- Model of a Python `str`: a list of Unicode code points. -/
abbrev Str := List Char

/-- Coercion from a Lean string literal to the model type. -/
def chars (s : String) : Str := s.data

/-- Whitespace test used by Python `str.strip()` / `str.split()`
(the source texts only contain ASCII whitespace, where Python's
definition and `Char.isWhitespace` agree). -/
def isWs (c : Char) : Bool := c.isWhitespace

/-- Model of Python `str.strip()`: drop leading and trailing whitespace. -/
def pyStrip (l : Str) : Str :=
  ((l.dropWhile isWs).reverse.dropWhile isWs).reverse

/-- Model of Python `str.lower()` (the strings involved are ASCII, where
Python `lower` and `Char.toLower` agree). -/
def pyLower (l : Str) : Str := l.map Char.toLower

/-- Model of Python `str.split()` with no separator: split on whitespace
runs, discarding empty pieces. -/
def pySplitWs (l : Str) : List Str :=
  (l.splitOnP isWs).filter (fun w => w ≠ [])

/-- Sentence-terminator test for `re.split(r'[.!?]+', text)`. -/
def isSentEnd (c : Char) : Bool := c = '.' || c = '!' || c = '?'

/-- Worker for `splitRuns`: `some acc` accumulates the current piece in
reverse, `none` means the scanner is inside a delimiter run whose piece has
already been emitted. -/
def splitRunsAux (p : Char → Bool) : Str → Option Str → List Str
  | [], some acc => [acc.reverse]
  | [], none => [[]]
  | c :: rest, some acc =>
    if p c then acc.reverse :: splitRunsAux p rest none
    else splitRunsAux p rest (some (c :: acc))
  | c :: rest, none =>
    if p c then splitRunsAux p rest none
    else splitRunsAux p rest (some [c])

/-- Model of `re.split` on a character class applied one-or-more times
(as in `re.split(r'[.!?]+', text)`): split on maximal runs of characters
satisfying `p`. -/
def splitRuns (p : Char → Bool) (l : Str) : List Str :=
  splitRunsAux p l (some [])

/-- Model of Python `text.split('\n\n')`: split on non-overlapping
occurrences of two consecutive newlines, scanning left to right. -/
def splitOnNN : Str → List Str
  | '\n' :: '\n' :: rest => [] :: splitOnNN rest
  | c :: rest =>
    match splitOnNN rest with
    | [] => [[c]]
    | h :: t => (c :: h) :: t
  | [] => [[]]

/-- Model of Python `sep.join(parts)`. -/
def joinWith (sep : Str) (parts : List Str) : Str :=
  List.intercalate sep parts

/-- Model of Python `pat in s` (contiguous substring containment). -/
def startsWithStr : Str → Str → Bool
  | _, [] => true
  | [], _ :: _ => false
  | c :: s, p :: ps => c = p && startsWithStr s ps

/-- Containment of `pat` in `s` as a contiguous substring, the semantics
of Python's `in` operator on strings. -/
def containsSub (s pat : Str) : Bool :=
  (List.range (s.length + 1)).any fun i => startsWithStr (s.drop i) pat

section Chunking

/-- Chunk record produced by `FixedSizeChunking.chunk_text`
(`app/services/chunking.py`): the joined window text together with the
metadata fields the source computes (`chunk_index`, `chunk_size`,
`start_word`, `end_word`; caller-supplied metadata is merged unchanged and
is not modelled). -/
structure FixedChunk where
  text : Str
  chunkIndex : Nat
  chunkSize : Nat
  startWord : Nat
  endWord : Nat
deriving DecidableEq, Repr

/-- Embedding of `FixedSizeChunking.chunk_text`.  The source iterates
`for i in range(0, len(words), chunk_size - overlap)`; the loop is indexed
here by the iteration count `k`, so that `i = k * (chunk_size - overlap)`
and `chunk_index = len(chunks) = k`. -/
def fixedChunkText (chunkSize overlap : Nat) (text : Str) : List FixedChunk :=
  let words := pySplitWs text
  let step := chunkSize - overlap
  (List.range ((words.length + step - 1) / step)).map fun k =>
    let i := k * step
    let chunkWords := (words.drop i).take chunkSize
    { text := joinWith [' '] chunkWords
      chunkIndex := k
      chunkSize := chunkWords.length
      startWord := i
      endWord := i + chunkWords.length - 1 }

/-- Chunk record produced by `SemanticChunking.chunk_text`: the stripped
buffer text plus the metadata fields the source computes
(`chunk_index`, `chunk_size` as a word count, `paragraph_start` which is
present only on chunks flushed inside the loop, and the constant
`semantic_boundary` flag). -/
structure SemChunk where
  text : Str
  chunkIndex : Nat
  chunkSize : Nat
  paragraphStart : Option Nat
  semanticBoundary : Bool
deriving DecidableEq, Repr

/-- Loop body of `SemanticChunking.chunk_text` for one sentence of
paragraph `paraIdx`: strip the sentence, skip it when empty, otherwise
either flush the running buffer (when appending would exceed
`max_chunk_size` and the buffer already reaches `min_chunk_size`) or
append the sentence to the buffer. -/
def semStep (maxSize minSize paraIdx : Nat) (st : List SemChunk × Str)
    (sentenceRaw : Str) : List SemChunk × Str :=
  let sentence := pyStrip sentenceRaw
  if sentence = [] then st
  else
    let chunks := st.1
    let current := st.2
    if maxSize < current.length + sentence.length then
      if minSize ≤ current.length then
        (chunks ++ [{ text := pyStrip current
                      chunkIndex := chunks.length
                      chunkSize := (pySplitWs current).length
                      paragraphStart := some paraIdx
                      semanticBoundary := true }],
         sentence)
      else
        (chunks, current ++ ' ' :: sentence)
    else
      (chunks, if current = [] then sentence else current ++ ' ' :: sentence)

/-- Embedding of `SemanticChunking.chunk_text`: split into paragraphs on
blank lines, split each paragraph on sentence-terminator runs, accumulate
sentences through `semStep`, and flush the trailing buffer only when it is
non-empty and reaches `min_chunk_size`. -/
def semChunkText (maxSize minSize : Nat) (text : Str) : List SemChunk :=
  let st := (splitOnNN text).enum.foldl
    (fun st para => (splitRuns isSentEnd para.2).foldl
      (semStep maxSize minSize para.1) st)
    ([], [])
  if st.2 ≠ [] ∧ minSize ≤ st.2.length then
    st.1 ++ [{ text := pyStrip st.2
               chunkIndex := st.1.length
               chunkSize := (pySplitWs st.2).length
               paragraphStart := none
               semanticBoundary := true }]
  else st.1

end Chunking

section Services

/-- Payload / metadata dictionary attached to a vector record.  The claims
only ever read the string-valued `text` field, so the dictionary is
modelled with string values; numeric metadata fields play no role in any
verified property. -/
abbrev Payload := List (Str × Str)

/-- Python `dict.get` on an association list (first binding wins). -/
def dictGet {α : Type} (m : List (Str × α)) (k : Str) : Option α :=
  (m.find? fun e => decide (e.1 = k)).map (fun e => e.2)

/-- Python `dict` item assignment on an insertion-ordered association
list: overwrite in place when the key exists, append otherwise. -/
def dictSet {α : Type} : List (Str × α) → Str → α → List (Str × α)
  | [], k, v => [(k, v)]
  | e :: rest, k, v => if e.1 = k then (k, v) :: rest else e :: dictSet rest k v

/-- Retrieval result tuple `(chunk_id, similarity, metadata)` as returned
by `VectorStore.search` and consumed by the RAG engine. -/
abbrev RetrievedChunk := Str × ℚ × Payload

/-- Decimal digits of a natural number. -/
def natDigits (n : Nat) : Str := (toString n).data

/-- Fractional part padded to three digits. -/
def pad3 (n : Nat) : Str :=
  List.replicate (3 - (natDigits n).length) '0' ++ natDigits n

/-- Model of the Python format `f"{x:.3f}"` with similarity scores as
rationals.  (CPython formats binary floats with round-half-even; this
model rounds half away from zero, a difference that is immaterial to every
property proved here, none of which depends on the rounded digits.) -/
def fmt3 (q : ℚ) : Str :=
  let scaled : Nat := (q.num.natAbs * 1000 + q.den / 2) / q.den
  (if q.num < 0 then ['-'] else []) ++
    natDigits (scaled / 1000) ++ '.' :: pad3 (scaled % 1000)

/-- Context lines built by `RAGEngine.generate_response`: each retrieved
chunk's text (from its metadata, defaulting to `Chunk {id}`) prefixed with
its formatted similarity. -/
def contextTexts (chunks : List RetrievedChunk) : List Str :=
  chunks.map fun c =>
    chars "[Similarity: " ++ fmt3 c.2.1 ++ chars "] " ++
      ((dictGet c.2.2 (chars "text")).getD (chars "Chunk " ++ c.1))

/-- Embedding of `RAGEngine._build_rag_prompt`.  A `chat_history` of
`none` models Python `None`; the `if chat_history:` truthiness test also
skips the empty string. -/
def buildRagPrompt (query context : Str) (chatHistory : Option Str) : Str :=
  chars "Based on the following context information, please answer the user's question. If the information is not available in the context, say so clearly. Provide specific and accurate information from the context.\n\nContext:\n"
    ++ context ++ chars "\n\n"
    ++ (if (chatHistory.getD []) ≠ [] then
          chars "Previous conversation:\n" ++ chatHistory.getD [] ++ chars "\n\n"
        else [])
    ++ chars "User Question: " ++ query
    ++ chars "\n\nPlease provide a comprehensive answer based on the context above:"

/-- Python `set(text.lower().split())` as a duplicate-free list (first
occurrences kept; only the size of intersections with it is ever used). -/
def wordSet (l : Str) : List Str := (pySplitWs (pyLower l)).dedup

/-- Size of `query_words.intersection(set(text.lower().split()))`. -/
def overlapCount (queryWords : List Str) (text : Str) : Nat :=
  ((wordSet text).filter fun w => decide (w ∈ queryWords)).length

/-- Body of the best-chunk loop of `RAGEngine._generate_simple_response`:
update the accumulator only on a strictly larger match count. -/
def bestStep (queryWords : List Str) (acc : Str × Nat) (chunk : Str) :
    Str × Nat :=
  let m := overlapCount queryWords chunk
  if acc.2 < m then (chunk, m) else acc

/-- Loop of `RAGEngine._generate_simple_response` selecting the best
chunk: starts from `("", 0)`, so the first chunk attaining the maximum
match count wins. -/
def bestChunkFold (queryWords : List Str) (texts : List Str) : Str × Nat :=
  texts.foldl (bestStep queryWords) ([], 0)

/-- Embedding of `RAGEngine._generate_simple_response`. -/
def generateSimpleResponse (query : Str) (ctxTexts : List Str) : Str :=
  if ctxTexts = [] then
    chars "I don't have enough information to answer your question."
  else
    let queryWords := wordSet query
    let best := bestChunkFold queryWords ctxTexts
    let excerpt := chars "Based on the available information: " ++
      (ctxTexts.headD []).take 200 ++ chars "..."
    if 0 < best.2 then
      let sentences := splitRuns isSentEnd best.1
      let relevant :=
        (sentences.filter fun s => 0 < overlapCount queryWords s).map pyStrip
      if relevant ≠ [] then joinWith [' '] (relevant.take 2)
      else excerpt
    else excerpt

/-- Grounding document dictionary built for the Cohere citations call. -/
structure CoDoc where
  title : Str
  snippet : Str
  text : Str
  url : Str
  similarity : ℚ
deriving DecidableEq, Repr

/-- Generative backend handle (`cohere.Client`): each method carries the
outcome of the awaited network call, `Except.error` modelling a raised
exception with its message.  `chat` additionally records whether the
web-search connector was attached (`connectors=[...] if not context_texts
else None`); `chatDocs` models the documents-grounded call and returns the
response text together with its citation list (`[]` when the response
carries no `citations` attribute). -/
structure LLMChat where
  chat : Str → Bool → Except Str Str
  chatDocs : Str → List CoDoc → Except Str (Str × List Str)

/-- Embedding of `RAGEngine.generate_response`. -/
def generateResponse (client : Option LLMChat) (query : Str)
    (contextChunks : List RetrievedChunk) (chatHistory : Option Str) : Str :=
  let ctxTexts := contextTexts contextChunks
  let context := joinWith (chars "\n\n") ctxTexts
  let prompt := buildRagPrompt query context chatHistory
  match client with
  | some c =>
    match c.chat prompt ctxTexts.isEmpty with
    | .ok t => pyStrip t
    | .error e => chars "Error generating response: " ++ e
  | none => generateSimpleResponse query ctxTexts

/-- Documents list prepared by `generate_response_with_citations`. -/
def ragDocuments (contextChunks : List RetrievedChunk) : List CoDoc :=
  contextChunks.map fun c =>
    let t := (dictGet c.2.2 (chars "text")).getD (chars "Chunk " ++ c.1)
    { title := chars "Document Chunk " ++ c.1
      snippet := t.take 500
      text := t
      url := chars "chunk://" ++ c.1
      similarity := c.2.1 }

/-- Result dictionary of `generate_response_with_citations`. -/
structure CiteResult where
  response : Str
  citations : List Str
  documents : List CoDoc
deriving DecidableEq, Repr

/-- Embedding of `RAGEngine.generate_response_with_citations`. -/
def generateResponseWithCitations (client : Option LLMChat) (query : Str)
    (contextChunks : List RetrievedChunk) (chatHistory : Option Str) :
    CiteResult :=
  match client with
  | none =>
    { response := generateSimpleResponse query
        (contextChunks.map fun c => (dictGet c.2.2 (chars "text")).getD [])
      citations := []
      documents := [] }
  | some c =>
    let documents := ragDocuments contextChunks
    match c.chatDocs query documents with
    | .ok r =>
      { response := pyStrip r.1
        citations := r.2
        documents := documents.take contextChunks.length }
    | .error _ =>
      { response := generateResponse (some c) query contextChunks chatHistory
        citations := []
        documents := [] }

/-- Model of `EmbeddingService`: the optional Cohere key (the client is
constructed iff the key is truthy), the local sentence-transformer
backend with its reported dimension, and the batched remote embed call
(the source iterates batches of 96 inside one `try`, so a failure anywhere
falls back to the local backend for the whole input). -/
structure EmbeddingServiceModel where
  cohereKey : Option Str
  stEmbed : Str → List ℚ
  stDim : Nat
  cohereCall : List Str → Except Str (List (List ℚ))

/-- Python truthiness of `settings.cohere_api_key` (an `Optional[str]`):
`None` and the empty string are falsy. -/
def truthyKey : Option Str → Bool
  | some s => !s.isEmpty
  | none => false

/-- Embedding of `EmbeddingService.generate_embeddings`; the source's
default argument is `model_type="sentence_transformer"`. -/
def generateEmbeddings (svc : EmbeddingServiceModel) (texts : List Str)
    (modelType : Str) : List (List ℚ) :=
  if modelType = chars "cohere" ∧ truthyKey svc.cohereKey = true then
    match svc.cohereCall texts with
    | .ok embs => embs
    | .error _ => texts.map svc.stEmbed
  else texts.map svc.stEmbed

/-- Embedding of `EmbeddingService.get_embedding_dimension`. -/
def getEmbeddingDimension (svc : EmbeddingServiceModel) : Nat :=
  if truthyKey svc.cohereKey = true then 1024 else svc.stDim

/-- Hit returned by the Qdrant client's `search` call. -/
structure QHit where
  id : Str
  score : ℚ
  payload : Option Payload
deriving DecidableEq, Repr

/-- Embedding of `QdrantVectorStore.search` as a function of the backend
call's outcome: on success the hits are shaped into result tuples
(`payload or {}`), on a raised exception the error is printed and an empty
list is returned. -/
def qdrantSearch (callResult : Except Str (List QHit)) : List RetrievedChunk :=
  match callResult with
  | .ok hits => hits.map fun h => (h.id, h.score, h.payload.getD [])
  | .error _ => []

/-- Embedding of `QdrantVectorStore.delete_vectors` as a function of the
backend call's outcome: `True` on success, `False` when the call raised. -/
def qdrantDeleteVectors (callResult : Except Str Unit) : Bool :=
  match callResult with
  | .ok _ => true
  | .error _ => false

/-- State of `InMemoryVectorStore`: two insertion-ordered dictionaries. -/
structure InMemStore where
  vectors : List (Str × List ℚ)
  metadata : List (Str × Payload)
deriving DecidableEq, Repr

/-- Embedding of `InMemoryVectorStore.add_vectors`.  The `uuid4`
generation used when `ids is None` is modelled by the supplied
`freshIds`; the `zip` truncates to the shortest input exactly as in
Python, and the full `ids` list is returned either way. -/
def inMemAddVectors (st : InMemStore) (vectors : List (List ℚ))
    (metadata : List Payload) (ids : Option (List Str))
    (freshIds : List Str) : InMemStore × List Str :=
  let ids := ids.getD freshIds
  ((ids.zip (vectors.zip metadata)).foldl
      (fun s e =>
        { vectors := dictSet s.vectors e.1 e.2.1
          metadata := dictSet s.metadata e.1 e.2.2 })
      st,
   ids)

/-- Conversation turn dictionary stored by `ChatMemoryService`.  The JSON
round trip `json.loads(json.dumps(msg))` is the identity on these
dictionaries and is not modelled separately. -/
structure Turn where
  role : Str
  content : Str
  timestamp : Str
  retrievedChunks : Option Nat
deriving DecidableEq, Repr

/-- Redis keyspace fragment used by the memory service: each key holds a
list whose head is the most recently pushed element. -/
abbrev RedisState := List (Str × List Turn)

/-- Model of redis `DEL key`. -/
def rDel : RedisState → Str → RedisState
  | [], _ => []
  | e :: rest, k => if e.1 = k then rDel rest k else e :: rDel rest k

/-- Model of redis `LRANGE key start stop`: both indices are inclusive,
negative indices count from the end of the list (`-1` is the last
element), and the effective stop is clamped to the last index. -/
def redisLrange (l : List Turn) (start stop : Int) : List Turn :=
  let n : Int := l.length
  let s := if start < 0 then max (n + start) 0 else start
  let e := min (if stop < 0 then n + stop else stop) (n - 1)
  if e < s then [] else (l.drop s.toNat).take (e - s + 1).toNat

/-- Key scheme of `ChatMemoryService`. -/
def chatKey (sessionId : Str) : Str := chars "chat:" ++ sessionId

/-- Embedding of `ChatMemoryService.save_message`: an `LPUSH` to the
session key.  The accompanying `EXPIRE` only refreshes the TTL, a passive
storage-layer behavior outside the verified properties. -/
def saveMessage (st : RedisState) (sessionId : Str) (msg : Turn) : RedisState :=
  dictSet st (chatKey sessionId) (msg :: (dictGet st (chatKey sessionId)).getD [])

/-- Embedding of `ChatMemoryService.get_chat_history`: `LRANGE key 0
limit-1` reversed into chronological order.  The stop index is the Python
integer `limit - 1`, which is `-1` when `limit = 0`. -/
def getChatHistory (st : RedisState) (sessionId : Str) (limit : Nat) : List Turn :=
  (redisLrange ((dictGet st (chatKey sessionId)).getD []) 0 ((limit : Int) - 1)).reverse

/-- Embedding of `ChatMemoryService.clear_chat_history`: redis `DEL`
returns the number of keys removed and the method returns `result > 0`. -/
def clearChatHistory (st : RedisState) (sessionId : Str) : RedisState × Bool :=
  (rDel st (chatKey sessionId), (dictGet st (chatKey sessionId)).isSome)

/-- Model of Python `str.title()` for the ASCII role names stored by the
service. -/
def pyTitleGo : Bool → Str → Str
  | _, [] => []
  | prevAlpha, c :: t =>
    (if c.isAlpha then (if prevAlpha then c.toLower else c.toUpper) else c) ::
      pyTitleGo c.isAlpha t

def pyTitle (l : Str) : Str := pyTitleGo false l

/-- Embedding of `ChatMemoryService.get_conversation_context`. -/
def getConversationContext (st : RedisState) (sessionId : Str)
    (maxTurns : Nat) : Str :=
  joinWith ['\n'] ((getChatHistory st sessionId (maxTurns * 2)).map
    fun m => pyTitle m.role ++ chars ": " ++ m.content)

end Services

section Orchestrator

/-- Keyword vocabulary of `RAGEngine._detect_booking_intent`. -/
def bookingKeywords : List Str :=
  [chars "schedule", chars "book", chars "interview", chars "appointment",
   chars "meeting", chars "available", chars "time", chars "date",
   chars "calendar", chars "when can"]

/-- Embedding of `RAGEngine._detect_booking_intent`: substring
containment of any keyword in the lowercased query. -/
def detectBookingIntent (query : Str) : Bool :=
  bookingKeywords.any fun kw => containsSub (pyLower query) kw

/-- Structured result dictionary of `RAGEngine.process_chat_query`.  The
booking branch's extra `requires_booking_info` key is modelled as an
optional field absent (`none`) from general-query results. -/
structure ChatResult where
  response : Str
  intent : Str
  requiresBookingInfo : Option Bool
  retrievedChunks : List RetrievedChunk
  citations : List Str
  documents : List CoDoc
deriving DecidableEq, Repr

/-- Fixed result returned by the booking short circuit. -/
def bookingChatResult : ChatResult :=
  { response := chars "I can help you schedule an interview. Please provide your name, email, preferred date, and time."
    intent := chars "booking"
    requiresBookingInfo := some true
    retrievedChunks := []
    citations := []
    documents := [] }

/-- Backend calls awaited by one run of the query pipeline, recorded in
order as an observable trace. -/
inductive PipelineOp
  | memoryContext
  | embedQuery
  | vectorSearch
  | synthesize
  | memorySave
deriving DecidableEq, Repr

/-- Environment of one `RAGEngine` run: the session store contents, the
embedding service, the vector store's search behavior, the optional
generative client, and the wall-clock timestamp (`datetime.utcnow`)
observed during the run. -/
structure RagEnv where
  redis : RedisState
  embedding : EmbeddingServiceModel
  search : List ℚ → Nat → List RetrievedChunk
  client : Option LLMChat
  now : Str

/-- Embedding of `RAGEngine.retrieve_relevant_chunks`: embed the query
with the embedding service's default `model_type` and search the vector
store.  (The `similarity_algorithm` parameter is accepted by the source
and passed nowhere.) -/
def retrieveRelevantChunks (env : RagEnv) (query : Str) (topK : Nat) :
    List RetrievedChunk :=
  env.search
    ((generateEmbeddings env.embedding [query] (chars "sentence_transformer")).headD [])
    topK

/-- Embedding of `RAGEngine.process_chat_query`, returning the structured
result, the updated session store, and the trace of backend calls
performed. -/
def processChatQuery (env : RagEnv) (sessionId query : Str) (topK : Nat)
    (useCitations : Bool) : ChatResult × RedisState × List PipelineOp :=
  if detectBookingIntent query = true then
    (bookingChatResult, env.redis, [])
  else
    let chatHistory := getConversationContext env.redis sessionId 5
    let relevantChunks := retrieveRelevantChunks env query topK
    let rcd :=
      if useCitations = true ∧ env.client.isSome = true then
        let r := generateResponseWithCitations env.client query relevantChunks
          (some chatHistory)
        (r.response, r.citations, r.documents)
      else
        (generateResponse env.client query relevantChunks (some chatHistory),
         ([] : List Str), ([] : List CoDoc))
    let st1 := saveMessage env.redis sessionId
      { role := chars "user", content := query, timestamp := env.now,
        retrievedChunks := none }
    let st2 := saveMessage st1 sessionId
      { role := chars "assistant", content := rcd.1, timestamp := env.now,
        retrievedChunks := some relevantChunks.length }
    ({ response := rcd.1
       intent := chars "general_query"
       requiresBookingInfo := none
       retrievedChunks := relevantChunks
       citations := rcd.2.1
       documents := rcd.2.2 },
     st2,
     [.memoryContext, .embedQuery, .vectorSearch, .synthesize,
      .memorySave, .memorySave])

end Orchestrator

section AuxiliaryDefinitions

/-- Text with no leading and no trailing whitespace (vacuously true of the
empty text). -/
def NoWsEdge (l : Str) : Prop :=
  (∀ c, l.head? = some c → isWs c = false) ∧
  (∀ c, l.getLast? = some c → isWs c = false)

/-- Invariant of the running buffer of `SemanticChunking.chunk_text`:
either it carries no edge whitespace (sentences are stripped and joined by
single interior spaces), or it consists of a single leading space followed
by whitespace-free text longer than `max_chunk_size` (which happens exactly
when a sentence longer than `max_chunk_size` arrives on an empty buffer and
is appended by the `min_chunk_size` guard). -/
def CurOK (maxSize : Nat) (cur : Str) : Prop :=
  NoWsEdge cur ∨ ∃ b, cur = ' ' :: b ∧ NoWsEdge b ∧ maxSize < b.length

/-- Window of at most `chunkSize` words starting at word index
`k * (chunkSize - overlap)`, the slice `words[i : i + chunk_size]` taken by
iteration `k` of `FixedSizeChunking.chunk_text`. -/
def fixedWindow (chunkSize overlap : Nat) (text : Str) (k : Nat) : List Str :=
  ((pySplitWs text).drop (k * (chunkSize - overlap))).take chunkSize

/-- Largest lexical-overlap count among the context texts (zero when the
list is empty). -/
def maxOverlap (queryWords : List Str) (texts : List Str) : Nat :=
  (texts.map (overlapCount queryWords)).foldr max 0

end AuxiliaryDefinitions

section Fixtures

/-- Generative client whose backend calls always raise. -/
def failClient : LLMChat :=
  { chat := fun _ _ => .error (chars "boom")
    chatDocs := fun _ _ => .error (chars "docs down") }

/-- One retrieved chunk with similarity 1 and a two-sentence text. -/
def exChunks : List RetrievedChunk :=
  [(chars "c1", (1 : ℚ), [(chars "text", chars "alpha beta. gamma.")])]

/-- Store holding a single vector of dimension 3. -/
def preStore : InMemStore :=
  (inMemAddVectors { vectors := [], metadata := [] }
    [[1, 2, 3]] [[(chars "text", chars "t1")]] (some [chars "a"]) []).1

/-- The same store after a dimension-2 vector has been added. -/
def postStore : InMemStore :=
  { vectors := [(chars "a", [1, 2, 3]), (chars "b", [4, 5])]
    metadata := [(chars "a", [(chars "text", chars "t1")]),
                 (chars "b", [(chars "text", chars "t2")])] }

/-- Embedding service configured with a Cohere key and a sentence
transformer of dimension 384 (the default all-MiniLM-L6-v2 model). -/
def misreportSvc : EmbeddingServiceModel :=
  { cohereKey := some (chars "api-key")
    stEmbed := fun _ => List.replicate 384 0
    stDim := 384
    cohereCall := fun ts => .ok (ts.map fun _ => List.replicate 1024 0) }

/-- Embedding service with no Cohere key. -/
def plainSvc : EmbeddingServiceModel :=
  { cohereKey := none
    stEmbed := fun _ => [1]
    stDim := 1
    cohereCall := fun _ => .error (chars "no client") }

/-- Pipeline environment with a non-empty vector store, used to witness
that the booking short circuit ignores the store contents. -/
def envEx : RagEnv :=
  { redis := []
    embedding := plainSvc
    search := fun _ _ =>
      [(chars "c9", (1 : ℚ), [(chars "text", chars "stored chunk")])]
    client := none
    now := chars "2026-10-12T00:00:00" }

/-- Example text of spec section 8 (12 whitespace-separated words). -/
def catText : Str := chars "The cat sat on the mat. The dog ran in the park."

/-- Small three-sentence text for the semantic chunker. -/
def semText : Str := chars "abcd efg. hi jkl mno. pq r."

def turnA : Turn :=
  { role := chars "user", content := chars "hi", timestamp := chars "t1",
    retrievedChunks := none }

def turnB : Turn :=
  { role := chars "assistant", content := chars "hello",
    timestamp := chars "t2", retrievedChunks := some 0 }

def turnC : Turn :=
  { role := chars "user", content := chars "bye", timestamp := chars "t3",
    retrievedChunks := none }

end Fixtures


section StripLemmas

theorem dropWhile_eq_self_of_head {p : Char → Bool} {l : Str}
    (h : ∀ c, l.head? = some c → p c = false) : l.dropWhile p = l := by
  cases l with
  | nil => rfl
  | cons a t => simp [List.dropWhile, h a rfl]

theorem head?_dropWhile_false {p : Char → Bool} {l : Str} {c : Char}
    (h : (l.dropWhile p).head? = some c) : p c = false := by
  induction l with
  | nil => simp [List.dropWhile] at h
  | cons a t ih =>
    rw [List.dropWhile_cons] at h
    by_cases hp : p a
    · rw [if_pos hp] at h; exact ih h
    · rw [if_neg hp] at h
      simp only [List.head?_cons, Option.some.injEq] at h
      subst h
      exact Bool.eq_false_iff.mpr hp

theorem pyStrip_eq_self {l : Str} (h : NoWsEdge l) : pyStrip l = l := by
  unfold pyStrip
  rw [dropWhile_eq_self_of_head h.1, dropWhile_eq_self_of_head, List.reverse_reverse]
  intro c hc
  rw [List.head?_reverse] at hc
  exact h.2 c hc

theorem pyStrip_space_cons {b : Str} (h : NoWsEdge b) :
    pyStrip (' ' :: b) = b := by
  have h1 : (' ' :: b).dropWhile isWs = b := by
    rw [List.dropWhile_cons]
    simp only [show isWs ' ' = true from rfl, if_true]
    exact dropWhile_eq_self_of_head h.1
  unfold pyStrip
  rw [h1, dropWhile_eq_self_of_head, List.reverse_reverse]
  intro c hc
  rw [List.head?_reverse] at hc
  exact h.2 c hc

theorem noWsEdge_append {a b : Str} (ha : NoWsEdge a) (hb : NoWsEdge b)
    (ha' : a ≠ []) (hb' : b ≠ []) : NoWsEdge (a ++ ' ' :: b) := by
  constructor
  · intro c hc
    rw [List.head?_append] at hc
    cases h0 : a.head? with
    | none => exact absurd (List.head?_eq_none_iff.mp h0) ha'
    | some x =>
      rw [h0] at hc
      simp only [Option.or_some, Option.some.injEq] at hc
      subst hc
      exact ha.1 x h0
  · intro c hc
    rw [List.getLast?_append] at hc
    cases h0 : (' ' :: b).getLast? with
    | none => simp at h0
    | some y =>
      have hy : b.getLast? = some y := by
        have : (' ' :: b).getLast? = b.getLast? := by
          cases b with
          | nil => exact absurd rfl hb'
          | cons d t => exact List.getLast?_cons_cons
        rw [← this, h0]
      rw [h0] at hc
      simp only [Option.or_some, Option.some.injEq] at hc
      subst hc
      exact hb.2 y hy

theorem noWsEdge_pyStrip (l : Str) : pyStrip l = [] ∨ NoWsEdge (pyStrip l) := by
  by_cases hn : pyStrip l = []
  · exact Or.inl hn
  right
  have hps : pyStrip l = ((l.dropWhile isWs).reverse.dropWhile isWs).reverse := rfl
  constructor
  · intro c hc
    rw [hps, List.head?_reverse] at hc
    have hy_ne : (l.dropWhile isWs).reverse.dropWhile isWs ≠ [] := by
      intro h0
      exact hn (by rw [hps, h0]; rfl)
    obtain ⟨t, ht⟩ := List.dropWhile_suffix (l := (l.dropWhile isWs).reverse) isWs
    have hgl : ((l.dropWhile isWs).reverse).getLast? = some c := by
      rw [← ht, List.getLast?_append, hc]; rfl
    rw [List.getLast?_reverse] at hgl
    exact head?_dropWhile_false hgl
  · intro c hc
    rw [hps, List.getLast?_reverse] at hc
    exact head?_dropWhile_false hc

end StripLemmas

section SemanticInvariant

theorem noWsEdge_nil : NoWsEdge [] := by
  constructor <;> intro c hc <;> simp at hc

theorem curOK_strip_length {maxSize minSize : Nat} {cur : Str}
    (hms : minSize ≤ maxSize) (hok : CurOK maxSize cur)
    (hlen : minSize ≤ cur.length) : minSize ≤ (pyStrip cur).length := by
  rcases hok with h | ⟨b, rfl, hb, hblen⟩
  · rw [pyStrip_eq_self h]; exact hlen
  · rw [pyStrip_space_cons hb]
    exact Nat.le_trans hms (Nat.le_of_lt hblen)

theorem curOK_append {maxSize : Nat} {cur s : Str}
    (hok : CurOK maxSize cur) (hs : NoWsEdge s) (hs' : s ≠ [])
    (hcur' : cur ≠ []) : CurOK maxSize (cur ++ ' ' :: s) := by
  rcases hok with h | ⟨b, rfl, hb, hblen⟩
  · exact Or.inl (noWsEdge_append h hs hcur' hs')
  · right
    refine ⟨b ++ ' ' :: s, rfl, ?_, ?_⟩
    · apply noWsEdge_append hb hs _ hs'
      intro h0
      rw [h0] at hblen
      exact absurd hblen (by simp)
    · calc maxSize < b.length := hblen
        _ ≤ (b ++ ' ' :: s).length := by simp

/-- One step of the semantic-chunking loop preserves the invariant: all
emitted chunk texts reach `min_chunk_size` and the buffer stays `CurOK`. -/
theorem semStep_inv {maxSize minSize paraIdx : Nat} (hms : minSize ≤ maxSize)
    {st : List SemChunk × Str} {raw : Str}
    (hc : ∀ c ∈ st.1, minSize ≤ c.text.length) (hk : CurOK maxSize st.2) :
    (∀ c ∈ (semStep maxSize minSize paraIdx st raw).1, minSize ≤ c.text.length) ∧
      CurOK maxSize (semStep maxSize minSize paraIdx st raw).2 := by
  unfold semStep
  by_cases hs0 : pyStrip raw = []
  · simp only [hs0, if_pos rfl]
    exact ⟨hc, hk⟩
  have hs : NoWsEdge (pyStrip raw) := (noWsEdge_pyStrip raw).resolve_left hs0
  simp only [if_neg hs0]
  by_cases hover : maxSize < st.2.length + (pyStrip raw).length
  · simp only [if_pos hover]
    by_cases hmin : minSize ≤ st.2.length
    · simp only [if_pos hmin]
      refine ⟨?_, Or.inl hs⟩
      intro c hcmem
      rcases List.mem_append.mp hcmem with h | h
      · exact hc c h
      · rcases List.mem_singleton.mp h with rfl
        exact curOK_strip_length hms hk hmin
    · simp only [if_neg hmin]
      refine ⟨hc, ?_⟩
      by_cases hcur : st.2 = []
      · right
        refine ⟨pyStrip raw, ?_, hs, ?_⟩
        · rw [hcur]; rfl
        · rw [hcur] at hover; simpa using hover
      · exact curOK_append hk hs hs0 hcur
  · simp only [if_neg hover]
    refine ⟨hc, ?_⟩
    by_cases hcur : st.2 = []
    · simp only [if_pos hcur]
      exact Or.inl hs
    · simp only [if_neg hcur]
      exact curOK_append hk hs hs0 hcur

theorem foldl_preserve {α β : Type} {f : β → α → β} {P : β → Prop}
    (h : ∀ st a, P st → P (f st a)) :
    ∀ (l : List α) (st : β), P st → P (l.foldl f st) := by
  intro l
  induction l with
  | nil => intro st hst; exact hst
  | cons a t ih => intro st hst; exact ih (f st a) (h st a hst)

/-- Every chunk emitted by the semantic chunker (including the trailing
flush) has stripped text of length at least `min_chunk_size`, provided
`min_chunk_size ≤ max_chunk_size`. -/
theorem semChunkText_min_size {maxSize minSize : Nat} (hms : minSize ≤ maxSize)
    (text : Str) :
    ∀ c ∈ semChunkText maxSize minSize text, minSize ≤ c.text.length := by
  unfold semChunkText
  have hinv :
      (∀ c ∈ ((splitOnNN text).enum.foldl
        (fun st para => (splitRuns isSentEnd para.2).foldl
          (semStep maxSize minSize para.1) st) ([], [])).1,
        minSize ≤ c.text.length) ∧
      CurOK maxSize ((splitOnNN text).enum.foldl
        (fun st para => (splitRuns isSentEnd para.2).foldl
          (semStep maxSize minSize para.1) st) ([], [])).2 := by
    apply foldl_preserve
      (P := fun st : List SemChunk × Str =>
        (∀ c ∈ st.1, minSize ≤ c.text.length) ∧ CurOK maxSize st.2)
    · intro st para hst
      apply foldl_preserve
        (P := fun st : List SemChunk × Str =>
          (∀ c ∈ st.1, minSize ≤ c.text.length) ∧ CurOK maxSize st.2)
      · intro st' raw hst'
        exact semStep_inv hms hst'.1 hst'.2
      · exact hst
    · refine ⟨?_, Or.inl noWsEdge_nil⟩
      intro c hc
      simp at hc
  set st := (splitOnNN text).enum.foldl
    (fun st para => (splitRuns isSentEnd para.2).foldl
      (semStep maxSize minSize para.1) st) ([], []) with hst
  by_cases hfin : st.2 ≠ [] ∧ minSize ≤ st.2.length
  · simp only [if_pos hfin]
    intro c hcmem
    rcases List.mem_append.mp hcmem with h | h
    · exact hinv.1 c h
    · rcases List.mem_singleton.mp h with rfl
      exact curOK_strip_length hms hinv.2 hfin.2
  · simp only [if_neg hfin]
    exact hinv.1

end SemanticInvariant

section FixedWindows

theorem lt_ceilDiv_iff {n step k : Nat} (h : 0 < step) :
    k < (n + step - 1) / step ↔ k * step < n := by
  constructor
  · intro hk
    have h2 : ((n + step - 1) / step) * step ≤ n + step - 1 :=
      Nat.div_mul_le_self _ _
    have h3 : (k + 1) * step ≤ ((n + step - 1) / step) * step :=
      Nat.mul_le_mul_right _ hk
    rw [Nat.succ_mul] at h3
    have h4 : k * step + step ≤ n + step - 1 := Nat.le_trans h3 h2
    omega
  · intro hkn
    have : k + 1 ≤ (n + step - 1) / step := by
      rw [Nat.le_div_iff_mul_le h, Nat.succ_mul]
      omega
    omega

/-- Length of the fixed-size chunk list: one chunk per iteration of
`range(0, len(words), chunk_size - overlap)`. -/
theorem fixedChunkText_length (S O : Nat) (text : Str) :
    (fixedChunkText S O text).length =
      ((pySplitWs text).length + (S - O) - 1) / (S - O) := by
  simp [fixedChunkText]

/-- Characterization of each emitted fixed-size chunk in terms of its
window of words. -/
theorem fixedChunkText_get (S O : Nat) (text : Str) (k : Nat)
    (hk : k < (fixedChunkText S O text).length) :
    (fixedChunkText S O text).get ⟨k, hk⟩ =
      { text := joinWith [' '] (fixedWindow S O text k)
        chunkIndex := k
        chunkSize := (fixedWindow S O text k).length
        startWord := k * (S - O)
        endWord := k * (S - O) + (fixedWindow S O text k).length - 1 } := by
  have hk' : k < ((pySplitWs text).length + (S - O) - 1) / (S - O) := by
    rw [← fixedChunkText_length S O text]; exact hk
  simp [fixedChunkText, fixedWindow, List.get_eq_getElem]

theorem fixedWindow_length_le (S O : Nat) (text : Str) (k : Nat) :
    (fixedWindow S O text k).length ≤ S := by
  simp only [fixedWindow, List.length_take]
  exact Nat.min_le_left _ _

/-- A window shorter than `chunk_size` exhausts the word list: it ends
exactly at the last word. -/
theorem fixedWindow_short_reaches_end (S O : Nat) (text : Str) (k : Nat)
    (hOS : O < S) (hk : k < (fixedChunkText S O text).length)
    (hshort : (fixedWindow S O text k).length < S) :
    k * (S - O) + (fixedWindow S O text k).length = (pySplitWs text).length := by
  have hstep : 0 < S - O := Nat.sub_pos_of_lt hOS
  have hkn : k * (S - O) < (pySplitWs text).length := by
    rw [fixedChunkText_length] at hk
    exact (lt_ceilDiv_iff hstep).mp hk
  simp only [fixedWindow, List.length_take, List.length_drop] at hshort ⊢
  omega

/-- Overlap relation between consecutive windows: the part of a window
from position `chunk_size - overlap` on equals the first `overlap` words of
the next window. -/
theorem fixedWindow_overlap (S O : Nat) (text : Str) (k : Nat) (hOS : O < S) :
    (fixedWindow S O text k).drop (S - O) =
      (fixedWindow S O text (k + 1)).take O := by
  simp only [fixedWindow]
  rw [List.drop_take, List.drop_drop, List.take_take]
  have h1 : k * (S - O) + (S - O) = (k + 1) * (S - O) := by ring
  have h2 : S - (S - O) = O := by omega
  have h3 : min O S = O := Nat.min_eq_left (Nat.le_of_lt hOS)
  rw [h1, h2, h3]

end FixedWindows


section BestChunk

theorem maxOverlap_cons (qw : List Str) (a : Str) (t : List Str) :
    maxOverlap qw (a :: t) = max (overlapCount qw a) (maxOverlap qw t) := rfl

theorem le_maxOverlap {qw : List Str} {texts : List Str} {c : Str}
    (hc : c ∈ texts) : overlapCount qw c ≤ maxOverlap qw texts := by
  induction texts with
  | nil => cases hc
  | cons a t ih =>
    rcases List.mem_cons.mp hc with rfl | h
    · exact Nat.le_max_left _ _
    · exact Nat.le_trans (ih h) (Nat.le_max_right _ _)

theorem maxOverlap_attained {qw : List Str} {texts : List Str}
    (h : 0 < maxOverlap qw texts) :
    ∃ c ∈ texts, maxOverlap qw texts ≤ overlapCount qw c := by
  induction texts with
  | nil => exact absurd h (by simp [maxOverlap])
  | cons a t ih =>
    rw [maxOverlap_cons] at h ⊢
    rcases Nat.le_total (maxOverlap qw t) (overlapCount qw a) with hle | hle
    · exact ⟨a, List.mem_cons_self a t, Nat.le_of_eq (Nat.max_eq_left hle)⟩
    · rw [Nat.max_eq_right hle] at h ⊢
      obtain ⟨c, hc, hcle⟩ := ih h
      exact ⟨c, List.mem_cons_of_mem a hc, hcle⟩

/-- Characterization of the best-chunk fold from an arbitrary
accumulator: nothing changes when nothing beats the incoming count, and
otherwise the first text attaining the maximal overlap is selected
together with that maximum. -/
theorem bestChunkFold_from (qw : List Str) :
    ∀ (texts : List Str) (b0 : Str) (m0 : Nat),
      (maxOverlap qw texts ≤ m0 →
        texts.foldl (bestStep qw) (b0, m0) = (b0, m0)) ∧
      (m0 < maxOverlap qw texts →
        texts.foldl (bestStep qw) (b0, m0) =
          ((texts.find? fun c =>
              decide (maxOverlap qw texts ≤ overlapCount qw c)).getD b0,
           maxOverlap qw texts)) := by
  intro texts
  induction texts with
  | nil =>
    intro b0 m0
    exact ⟨fun _ => rfl, fun h => absurd h (by simp [maxOverlap])⟩
  | cons a t ih =>
    intro b0 m0
    constructor
    · intro hle
      rw [maxOverlap_cons] at hle
      have ha : overlapCount qw a ≤ m0 :=
        Nat.le_trans (Nat.le_max_left _ _) hle
      have ht : maxOverlap qw t ≤ m0 :=
        Nat.le_trans (Nat.le_max_right _ _) hle
      rw [List.foldl_cons]
      have hstep : bestStep qw (b0, m0) a = (b0, m0) := by
        simp [bestStep, Nat.not_lt.mpr ha]
      rw [hstep]
      exact (ih b0 m0).1 ht
    · intro hlt
      rw [maxOverlap_cons] at hlt
      rw [List.foldl_cons]
      by_cases hao : m0 < overlapCount qw a
      · have hstep : bestStep qw (b0, m0) a = (a, overlapCount qw a) := by
          simp [bestStep, hao]
        rw [hstep]
        by_cases hMt : maxOverlap qw t ≤ overlapCount qw a
        · have hM : max (overlapCount qw a) (maxOverlap qw t) =
              overlapCount qw a := Nat.max_eq_left hMt
          rw [maxOverlap_cons, hM]
          have hfind : ((a :: t).find? fun c =>
              decide (overlapCount qw a ≤ overlapCount qw c)) = some a := by
            rw [List.find?_cons]
            simp
          rw [hfind]
          exact (ih a (overlapCount qw a)).1 hMt
        · push_neg at hMt
          have hM : max (overlapCount qw a) (maxOverlap qw t) =
              maxOverlap qw t := Nat.max_eq_right (Nat.le_of_lt hMt)
          rw [maxOverlap_cons, hM]
          have hfind : ((a :: t).find? fun c =>
              decide (maxOverlap qw t ≤ overlapCount qw c)) =
              (t.find? fun c =>
                decide (maxOverlap qw t ≤ overlapCount qw c)) := by
            rw [List.find?_cons]
            simp [Nat.not_le.mpr hMt]
          rw [hfind]
          have h2 := (ih a (overlapCount qw a)).2 hMt
          rw [h2]
          obtain ⟨c, hcmem, hcle⟩ := maxOverlap_attained
            (Nat.lt_of_le_of_lt (Nat.zero_le _) hMt)
          have hpc : (fun c => decide (maxOverlap qw t ≤ overlapCount qw c)) c
              = true := by
            simp only [decide_eq_true_eq]
            exact hcle
          obtain ⟨x, hx⟩ := Option.isSome_iff_exists.mp
            (show (t.find? fun c =>
                decide (maxOverlap qw t ≤ overlapCount qw c)).isSome from
              List.find?_isSome.mpr ⟨c, hcmem, hpc⟩)
          rw [hx]
          rfl
      · push_neg at hao
        have hstep : bestStep qw (b0, m0) a = (b0, m0) := by
          simp [bestStep, Nat.not_lt.mpr hao]
        rw [hstep]
        have hmt : m0 < maxOverlap qw t := by
          rcases lt_max_iff.mp hlt with h | h
          · exact absurd h (Nat.not_lt.mpr hao)
          · exact h
        have hM : max (overlapCount qw a) (maxOverlap qw t) =
            maxOverlap qw t :=
          Nat.max_eq_right (Nat.le_trans hao (Nat.le_of_lt hmt))
        have hfind : ((a :: t).find? fun c =>
            decide (maxOverlap qw t ≤ overlapCount qw c)) =
            (t.find? fun c =>
              decide (maxOverlap qw t ≤ overlapCount qw c)) := by
          apply List.find?_cons_of_neg
          simp [Nat.not_le.mpr (Nat.lt_of_le_of_lt hao hmt)]
        rw [maxOverlap_cons, hM, hfind]
        exact (ih b0 m0).2 hmt

end BestChunk

section MemoryLemmas

theorem dictGet_dictSet_self {α : Type} (st : List (Str × α)) (k : Str)
    (v : α) : dictGet (dictSet st k v) k = some v := by
  induction st with
  | nil => simp [dictGet, dictSet, List.find?]
  | cons e rest ih =>
    by_cases h : e.1 = k
    · simp [dictSet, h, dictGet, List.find?]
    · simp only [dictSet, if_neg h]
      simp only [dictGet, List.find?] at ih ⊢
      simp [h, ih]

theorem dictGet_rDel_self (st : RedisState) (k : Str) :
    dictGet (rDel st k) k = none := by
  induction st with
  | nil => simp [rDel, dictGet, List.find?]
  | cons e rest ih =>
    by_cases h : e.1 = k
    · simpa [rDel, h] using ih
    · simp only [rDel, if_neg h]
      simp only [dictGet, List.find?] at ih ⊢
      simp [h, ih]

theorem saveAll_get (sid : Str) :
    ∀ (ts : List Turn) (st : RedisState) (cur : List Turn),
      dictGet st (chatKey sid) = some cur →
      dictGet (ts.foldl (fun s t => saveMessage s sid t) st) (chatKey sid)
        = some (ts.reverse ++ cur) := by
  intro ts
  induction ts with
  | nil => intro st cur h; simpa using h
  | cons t ts' ih =>
    intro st cur h
    rw [List.foldl_cons]
    have h1 : dictGet (saveMessage st sid t) (chatKey sid) = some (t :: cur) := by
      unfold saveMessage
      rw [h]
      exact dictGet_dictSet_self ..
    rw [ih (saveMessage st sid t) (t :: cur) h1]
    simp

theorem lrange_take (l : List Turn) (k : Nat) (hk : 1 ≤ k) :
    redisLrange l 0 ((k : Int) - 1) = l.take k := by
  unfold redisLrange
  have h0 : ¬ ((0 : Int) < 0) := by omega
  have h1 : ¬ ((k : Int) - 1 < 0) := by omega
  simp only [if_neg h0, if_neg h1]
  rcases Nat.eq_zero_or_pos l.length with hn | hn
  · have hl : l = [] := List.length_eq_zero.mp hn
    subst hl
    simp only [List.length_nil]
    have h2 : min ((k : Int) - 1) ((Nat.cast 0 : Int) - 1) < 0 := by omega
    rw [if_pos h2]
    simp
  · have hmin : ¬ (min ((k : Int) - 1) ((l.length : Int) - 1) < 0) := by omega
    rw [if_neg hmin]
    rcases Nat.le_total k l.length with hkn | hkn
    · have h3 : (min ((k : Int) - 1) ((l.length : Int) - 1) - 0 + 1).toNat = k := by
        omega
      rw [h3, show ((0 : Int)).toNat = 0 from rfl, List.drop_zero]
    · have h3 : (min ((k : Int) - 1) ((l.length : Int) - 1) - 0 + 1).toNat
          = l.length := by omega
      rw [h3, show ((0 : Int)).toNat = 0 from rfl, List.drop_zero,
        List.take_length, List.take_of_length_le hkn]

/-- History of a session populated by successive `save_message` calls on a
previously key-less session: the most recent `limit` turns, oldest
first. -/
theorem history_after_saves (st : RedisState) (sid : Str) (turns : List Turn)
    (k : Nat) (h0 : dictGet st (chatKey sid) = none) (hk : 1 ≤ k) :
    getChatHistory (turns.foldl (fun s t => saveMessage s sid t) st) sid k
      = turns.drop (turns.length - k) := by
  cases turns with
  | nil =>
    unfold getChatHistory
    rw [List.foldl_nil, h0, Option.getD_none, lrange_take [] k hk]
    simp
  | cons t ts =>
    have h1 : dictGet (saveMessage st sid t) (chatKey sid) = some [t] := by
      unfold saveMessage
      rw [h0]
      exact dictGet_dictSet_self ..
    have h2 := saveAll_get sid ts (saveMessage st sid t) [t] h1
    unfold getChatHistory
    rw [List.foldl_cons, h2, Option.getD_some, lrange_take _ k hk]
    have h3 : ts.reverse ++ [t] = (t :: ts).reverse := by simp
    rw [h3, ← List.rtake_eq_reverse_take_reverse]
    rfl

/-- Clearing a session empties its history. -/
theorem history_after_clear (st : RedisState) (sid : Str) (k : Nat)
    (hk : 1 ≤ k) :
    getChatHistory (clearChatHistory st sid).1 sid k = [] := by
  unfold getChatHistory clearChatHistory
  rw [dictGet_rDel_self, Option.getD_none, lrange_take [] k hk]
  simp

/-- The boolean returned by `clear_chat_history` is false exactly when
the session key was absent. -/
theorem clear_false_iff_no_key (st : RedisState) (sid : Str) :
    (clearChatHistory st sid).2 = false ↔ dictGet st (chatKey sid) = none := by
  unfold clearChatHistory
  cases dictGet st (chatKey sid) <;> simp

end MemoryLemmas

section BookingLemmas

theorem startsWithStr_append_left {s p r : Str}
    (h : startsWithStr s (p ++ r) = true) : startsWithStr s p = true := by
  induction p generalizing s with
  | nil => cases s <;> rfl
  | cons a p' ih =>
    cases s with
    | nil => exact absurd h (by simp [startsWithStr])
    | cons c s' =>
      simp only [List.cons_append, startsWithStr, Bool.and_eq_true] at h ⊢
      exact ⟨h.1, ih h.2⟩

theorem startsWithStr_map {f : Char → Char} {s p : Str}
    (h : startsWithStr s p = true) :
    startsWithStr (s.map f) (p.map f) = true := by
  induction p generalizing s with
  | nil => cases s <;> rfl
  | cons a p' ih =>
    cases s with
    | nil => exact absurd h (by simp [startsWithStr])
    | cons c s' =>
      simp only [List.map_cons, startsWithStr, Bool.and_eq_true,
        decide_eq_true_eq] at h ⊢
      exact ⟨by rw [h.1], ih h.2⟩

theorem containsSub_mono_pat {s p r : Str}
    (h : containsSub s (p ++ r) = true) : containsSub s p = true := by
  unfold containsSub at h ⊢
  obtain ⟨i, hi, hs⟩ := List.any_eq_true.mp h
  exact List.any_eq_true.mpr ⟨i, hi, startsWithStr_append_left hs⟩

theorem containsSub_pyLower {q pat : Str} (h : containsSub q pat = true)
    (hfix : pyLower pat = pat) : containsSub (pyLower q) pat = true := by
  unfold containsSub at h ⊢
  obtain ⟨i, hi, hs⟩ := List.any_eq_true.mp h
  refine List.any_eq_true.mpr ⟨i, ?_, ?_⟩
  · simpa [pyLower] using hi
  · have h2 := startsWithStr_map (f := Char.toLower) hs
    have hfix2 : pat.map Char.toLower = pat := hfix
    rw [hfix2] at h2
    have h3 : (pyLower q).drop i = (q.drop i).map Char.toLower := by
      simp [pyLower, List.map_drop]
    rw [h3]
    exact h2

theorem detectBookingIntent_of_kw {query kw : Str}
    (hkw : kw ∈ bookingKeywords) (hfix : pyLower kw = kw)
    (hsub : containsSub query kw = true) :
    detectBookingIntent query = true := by
  unfold detectBookingIntent
  exact List.any_eq_true.mpr ⟨kw, hkw, containsSub_pyLower hsub hfix⟩

/-- All booking keywords are already lowercase. -/
theorem bookingKeywords_lower :
    ∀ kw ∈ bookingKeywords, pyLower kw = kw := by decide

/-- The booking branch of `process_chat_query`: a detected intent returns
the fixed booking result immediately, leaves the session store untouched
and performs no backend call at all. -/
theorem processChatQuery_booking (env : RagEnv) (sid query : Str)
    (topK : Nat) (useCitations : Bool)
    (h : detectBookingIntent query = true) :
    processChatQuery env sid query topK useCitations
      = (bookingChatResult, env.redis, []) := by
  unfold processChatQuery
  rw [if_pos h]

end BookingLemmas

section SimpleResponseLemmas

/-- Case analysis of `_generate_simple_response`: the fixed message on an
empty retrieval, the excerpt of the top-ranked chunk when nothing
overlaps, and otherwise the first chunk attaining the maximal overlap
(characterized through `find?`, retrieval order breaking ties) whose
overlapping sentences, when any exist, form the answer. -/
theorem generateSimpleResponse_cases (query : Str) (texts : List Str) :
    (texts = [] → generateSimpleResponse query texts =
      chars "I don't have enough information to answer your question.") ∧
    (maxOverlap (wordSet query) texts = 0 → texts ≠ [] →
      generateSimpleResponse query texts =
        chars "Based on the available information: " ++
          (texts.headD []).take 200 ++ chars "...") ∧
    (0 < maxOverlap (wordSet query) texts → texts ≠ [] →
      ∃ best,
        texts.find? (fun c => decide (maxOverlap (wordSet query) texts ≤
          overlapCount (wordSet query) c)) = some best ∧
        overlapCount (wordSet query) best = maxOverlap (wordSet query) texts ∧
        generateSimpleResponse query texts =
          (if ((splitRuns isSentEnd best).filter fun s =>
                0 < overlapCount (wordSet query) s).map pyStrip ≠ [] then
            joinWith [' ']
              ((((splitRuns isSentEnd best).filter fun s =>
                0 < overlapCount (wordSet query) s).map pyStrip).take 2)
          else
            chars "Based on the available information: " ++
              (texts.headD []).take 200 ++ chars "...")) := by
  refine ⟨fun h => by simp [generateSimpleResponse, h], ?_, ?_⟩
  · intro hM hne
    have hfold : bestChunkFold (wordSet query) texts = ([], 0) :=
      (bestChunkFold_from (wordSet query) texts [] 0).1 (Nat.le_of_eq hM)
    simp only [generateSimpleResponse, if_neg hne, bestChunkFold] at hfold ⊢
    rw [hfold]
    simp
  · intro hM hne
    have hfold := (bestChunkFold_from (wordSet query) texts [] 0).2 hM
    obtain ⟨c, hcmem, hcle⟩ := maxOverlap_attained hM
    have hpc : (fun c => decide (maxOverlap (wordSet query) texts ≤
        overlapCount (wordSet query) c)) c = true := by
      simp only [decide_eq_true_eq]
      exact hcle
    obtain ⟨best, hbest⟩ := Option.isSome_iff_exists.mp
      (show (texts.find? fun c => decide (maxOverlap (wordSet query) texts ≤
          overlapCount (wordSet query) c)).isSome from
        List.find?_isSome.mpr ⟨c, hcmem, hpc⟩)
    rw [hbest] at hfold
    simp only [Option.getD_some] at hfold
    have hov : overlapCount (wordSet query) best
        = maxOverlap (wordSet query) texts := by
      apply Nat.le_antisymm
      · exact le_maxOverlap (List.mem_of_find?_eq_some hbest)
      · have h2 := List.find?_some hbest
        simpa using h2
    refine ⟨best, hbest, hov, ?_⟩
    simp only [generateSimpleResponse, if_neg hne, bestChunkFold]
    rw [hfold]
    simp only [if_pos hM]

end SimpleResponseLemmas


section Claims

/-- C1 (counterexample): when the generative backend's chat call raises,
`generate_response` returns the string "Error generating response: ..."
rather than the extractive fallback over the retrieved chunks — at this
input the two answers differ, refuting the claim that the response is
produced by the extractive fallback. -/
theorem claim_C1_counterexample :
    generateResponse (some failClient) (chars "alpha") exChunks none
      = chars "Error generating response: boom" ∧
    generateSimpleResponse (chars "alpha") (contextTexts exChunks)
      = chars "000] alpha beta" ∧
    generateResponse (some failClient) (chars "alpha") exChunks none
      ≠ generateSimpleResponse (chars "alpha") (contextTexts exChunks) := by
  exact ⟨by decide, by decide, by decide⟩

/-- C1 (amended): when the generative backend's chat call raises, the
exception is caught and never propagated to the caller, but the returned
response is the string `"Error generating response: <message>"`, not the
extractive fallback; the citations variant falls back to
`generate_response` and hence to the same error string.  The extractive
fallback is used only when no generative backend is configured. -/
theorem claim_C1_error_not_propagated (client : LLMChat) (query : Str)
    (chunks : List RetrievedChunk) (chatHistory : Option Str)
    (msg msgDocs : Str)
    (hchat : client.chat
        (buildRagPrompt query (joinWith (chars "\n\n") (contextTexts chunks))
          chatHistory)
        (contextTexts chunks).isEmpty = .error msg)
    (hdocs : client.chatDocs query (ragDocuments chunks) = .error msgDocs) :
    generateResponse (some client) query chunks chatHistory
      = chars "Error generating response: " ++ msg ∧
    generateResponseWithCitations (some client) query chunks chatHistory
      = { response := chars "Error generating response: " ++ msg
          citations := []
          documents := [] } := by
  have h1 : generateResponse (some client) query chunks chatHistory
      = chars "Error generating response: " ++ msg := by
    simp only [generateResponse]
    rw [hchat]
  refine ⟨h1, ?_⟩
  simp only [generateResponseWithCitations]
  rw [hdocs, h1]

theorem claim_C1_error_not_propagated_witness :
    generateResponse (some failClient) (chars "q") exChunks none
      = chars "Error generating response: boom" ∧
    generateResponseWithCitations (some failClient) (chars "q") exChunks none
      = { response := chars "Error generating response: boom"
          citations := []
          documents := [] } :=
  claim_C1_error_not_propagated failClient (chars "q") exChunks none
    (chars "boom") (chars "docs down") rfl rfl

/-- C2: a raised backend exception (for example a network timeout) is
absorbed by `QdrantVectorStore.search` into an empty result list and by
`QdrantVectorStore.delete_vectors` into `False`; no typed error reaches
the caller, contradicting the spec's hard requirement. -/
theorem claim_C2_backend_failure_absorbed :
    qdrantSearch (.error (chars "network timeout"))
      = ([] : List RetrievedChunk) ∧
    qdrantDeleteVectors (.error (chars "network timeout")) = false :=
  ⟨rfl, rfl⟩

/-- C3: `InMemoryVectorStore.add_vectors` performs no dimension check: a
store holding a dimension-3 vector accepts a dimension-2 vector, returns
its id as a success and mutates the store, instead of rejecting with a
typed `DimensionMismatchError` and leaving the store unchanged. -/
theorem claim_C3_dimension_mismatch_accepted :
    (preStore.vectors.map fun e => e.2.length) = [3] ∧
    inMemAddVectors preStore [[4, 5]] [[(chars "text", chars "t2")]]
        (some [chars "b"]) []
      = (postStore, [chars "b"]) ∧
    (postStore.vectors.map fun e => e.2.length) = [3, 2] ∧
    postStore ≠ preStore := by
  exact ⟨by decide, by decide, by decide, by decide⟩

set_option maxRecDepth 4000 in
/-- C4: with a Cohere key configured, `get_embedding_dimension` reports
1024, but `generate_embeddings` called with its default
`model_type="sentence_transformer"` — exactly how the query pipeline
calls it — produces sentence-transformer vectors (dimension 384 for the
default model), so the reported dimension is not the dimension of the
backend actually serving requests. -/
theorem claim_C4_dimension_misreport :
    getEmbeddingDimension misreportSvc = 1024 ∧
    (generateEmbeddings misreportSvc [chars "query"]
        (chars "sentence_transformer")).map List.length = [384] ∧
    getEmbeddingDimension misreportSvc ≠ 384 := by
  refine ⟨rfl, ?_, by decide⟩
  decide

/-- C5: for `min_chunk_size ≤ max_chunk_size`, every chunk emitted by the
semantic chunker — the buffer is flushed on a would-exceed-`max_size`
sentence only once it reaches `min_size`, and the trailing buffer is
emitted only if it reaches `min_size` — has text of length at least
`min_chunk_size`; shorter trailing remainders are dropped. -/
theorem claim_C5_semantic_min_size (maxSize minSize : Nat) (text : Str)
    (h : minSize ≤ maxSize) :
    ∀ c ∈ semChunkText maxSize minSize text, minSize ≤ c.text.length :=
  semChunkText_min_size h text

theorem claim_C5_semantic_min_size_witness :
    3 ≤ 10 ∧
    (∀ c ∈ semChunkText 10 3 semText, 3 ≤ c.text.length) ∧
    (semChunkText 10 3 semText).map SemChunk.text
      = [chars "abcd efg", chars "hi jkl mno", chars "pq r"] :=
  ⟨by decide, claim_C5_semantic_min_size 10 3 semText (by decide), by decide⟩

/-- C6 (counterexample): with S=5, O=3 on the 4-word text "a b c d" the
chunker emits two windows of 4 and 2 words: the first window is non-final
yet shorter than S, and its last O=3 words ("b c d") cannot reappear as
the first words of the 2-word next window — refuting both the
"only the final window may be shorter" and the stated overlap property. -/
theorem claim_C6_counterexample :
    (fixedChunkText 5 3 (chars "a b c d")).length = 2 ∧
    (fixedChunkText 5 3 (chars "a b c d")).map FixedChunk.chunkSize
      = [4, 2] ∧
    (fixedChunkText 5 3 (chars "a b c d")).map FixedChunk.text
      = [chars "a b c d", chars "c d"] ∧
    (4 : Nat) < 5 := by
  exact ⟨by decide, by decide, by decide, by decide⟩

/-- C6 (amended): for O < S the chunker emits one window per iteration of
`range(0, len(words), S-O)`: window k is `words[k*(S-O) : k*(S-O)+S]`
with the recorded metadata, hence has at most S words; a window shorter
than S ends exactly at the last word (so short windows are the trailing
ones that exhaust the text, not necessarily only the final one); and the
words of a window from position S-O on are exactly the first
`min(O, |next window|)` words of the next window — when a window is full
these are its last O words. -/
theorem claim_C6_window_structure (S O : Nat) (text : Str) (hOS : O < S) :
    (fixedChunkText S O text).length
        = ((pySplitWs text).length + (S - O) - 1) / (S - O) ∧
    (∀ k, k < (fixedChunkText S O text).length ↔
        k * (S - O) < (pySplitWs text).length) ∧
    (∀ k (hk : k < (fixedChunkText S O text).length),
      (fixedChunkText S O text).get ⟨k, hk⟩ =
        { text := joinWith [' '] (fixedWindow S O text k)
          chunkIndex := k
          chunkSize := (fixedWindow S O text k).length
          startWord := k * (S - O)
          endWord := k * (S - O) + (fixedWindow S O text k).length - 1 }) ∧
    (∀ k, (fixedWindow S O text k).length ≤ S) ∧
    (∀ k, k < (fixedChunkText S O text).length →
      (fixedWindow S O text k).length < S →
      k * (S - O) + (fixedWindow S O text k).length
        = (pySplitWs text).length) ∧
    (∀ k, (fixedWindow S O text k).drop (S - O)
        = (fixedWindow S O text (k + 1)).take O) := by
  have hstep : 0 < S - O := Nat.sub_pos_of_lt hOS
  refine ⟨fixedChunkText_length S O text, ?_, ?_, ?_, ?_, ?_⟩
  · intro k
    rw [fixedChunkText_length]
    exact lt_ceilDiv_iff hstep
  · exact fun k hk => fixedChunkText_get S O text k hk
  · exact fun k => fixedWindow_length_le S O text k
  · exact fun k hk => fixedWindow_short_reaches_end S O text k hOS hk
  · exact fun k => fixedWindow_overlap S O text k hOS

theorem claim_C6_window_structure_witness :
    1 < 5 ∧
    (fixedChunkText 5 1 catText).length
      = ((pySplitWs catText).length + (5 - 1) - 1) / (5 - 1) ∧
    (fixedChunkText 5 1 catText).map FixedChunk.startWord = [0, 4, 8] ∧
    (fixedChunkText 5 1 catText).map FixedChunk.chunkSize = [5, 5, 4] :=
  ⟨by decide, (claim_C6_window_structure 5 1 catText (by decide)).1,
   by decide, by decide⟩

/-- C7: a query whose lowercase form matches the booking vocabulary — in
particular any query containing the substring "schedule an interview" —
makes `process_chat_query` return the fixed booking result immediately:
intent `booking`, the fixed prompt asking for name/email/date/time, an
empty retrieved-chunk list, an untouched session store, and an empty
backend-call trace (no embedding, no vector search), for every
environment and hence regardless of the VectorStore contents. -/
theorem claim_C7_booking_short_circuit (env : RagEnv) (sid query : Str)
    (topK : Nat) (useCitations : Bool) :
    (containsSub query (chars "schedule an interview") = true →
      detectBookingIntent query = true) ∧
    (detectBookingIntent query = true →
      processChatQuery env sid query topK useCitations
        = (bookingChatResult, env.redis, [])) ∧
    bookingChatResult.intent = chars "booking" ∧
    bookingChatResult.retrievedChunks = [] ∧
    bookingChatResult.response
      = chars "I can help you schedule an interview. Please provide your name, email, preferred date, and time." := by
  refine ⟨?_, processChatQuery_booking env sid query topK useCitations,
    rfl, rfl, rfl⟩
  intro h
  have hsplit : chars "schedule an interview"
      = chars "schedule" ++ chars " an interview" := by decide
  rw [hsplit] at h
  exact detectBookingIntent_of_kw (by decide) (by decide)
    (containsSub_mono_pat h)

theorem claim_C7_booking_short_circuit_witness :
    containsSub (chars "Please schedule an interview with me")
        (chars "schedule an interview") = true ∧
    processChatQuery envEx (chars "s1")
        (chars "Please schedule an interview with me") 5 true
      = (bookingChatResult, envEx.redis, []) := by
  have h := claim_C7_booking_short_circuit envEx (chars "s1")
    (chars "Please schedule an interview with me") 5 true
  exact ⟨by decide, h.2.1 (h.1 (by decide))⟩

/-- C8 (counterexample): with limit 0 the source issues
`LRANGE key 0 -1`, whose redis semantics is the whole list, so
`history(limit=0)` on a one-turn session returns that turn instead of the
min(N, 0) = 0 turns the claim predicts. -/
theorem claim_C8_counterexample :
    getChatHistory (saveMessage [] (chars "s") turnA) (chars "s") 0
      = [turnA] ∧
    (getChatHistory (saveMessage [] (chars "s") turnA) (chars "s") 0).length
      ≠ min 1 0 := by
  exact ⟨by decide, by decide⟩

/-- C8 (amended): for every limit k ≥ 1, after appending N turns to a
session with no stored key, `history(limit=k)` returns exactly the
min(N, k) most recent turns in chronological (oldest-first) order — the
suffix `turns.drop (N - k)`; `clear` followed by `history` returns the
empty list; and `clear` returns false exactly when the session had no
stored key.  (For k = 0 the underlying `LRANGE 0 -1` returns the entire
history instead.) -/
theorem claim_C8_memory_history (st : RedisState) (sid : Str)
    (turns : List Turn) (k : Nat) (h0 : dictGet st (chatKey sid) = none)
    (hk : 1 ≤ k) :
    getChatHistory (turns.foldl (fun s t => saveMessage s sid t) st) sid k
      = turns.drop (turns.length - k) ∧
    (∀ st' : RedisState,
      getChatHistory (clearChatHistory st' sid).1 sid k = []) ∧
    (∀ st' : RedisState, (clearChatHistory st' sid).2 = false ↔
      dictGet st' (chatKey sid) = none) :=
  ⟨history_after_saves st sid turns k h0 hk,
   fun st' => history_after_clear st' sid k hk,
   fun st' => clear_false_iff_no_key st' sid⟩

theorem claim_C8_memory_history_witness :
    getChatHistory
        ([turnA, turnB, turnC].foldl
          (fun s t => saveMessage s (chars "s") t) [])
        (chars "s") 2
      = [turnB, turnC] ∧
    getChatHistory (clearChatHistory [(chatKey (chars "s"), [turnA])]
        (chars "s")).1 (chars "s") 2 = [] ∧
    ((clearChatHistory ([] : RedisState) (chars "s")).2 = false ↔
      dictGet ([] : RedisState) (chatKey (chars "s")) = none) := by
  have h := claim_C8_memory_history [] (chars "s") [turnA, turnB, turnC] 2
    rfl (by decide)
  exact ⟨h.1, h.2.1 _, h.2.2 _⟩

/-- C9 (counterexample): on query "a.b" and the single retrieved chunk
"x a.b y" the chunk has a positive lexical overlap with the query's word
set, yet no sentence of the chunk contains an overlapping word (the token
spans a sentence terminator), and the code returns the truncated excerpt —
which the claim reserves for the no-chunk-has-any-overlap case — rather
than a concatenation of overlapping sentences. -/
theorem claim_C9_counterexample :
    0 < overlapCount (wordSet (chars "a.b")) (chars "x a.b y") ∧
    (((splitRuns isSentEnd (chars "x a.b y")).filter fun s =>
        0 < overlapCount (wordSet (chars "a.b")) s).map pyStrip) = [] ∧
    generateSimpleResponse (chars "a.b") [chars "x a.b y"]
      = chars "Based on the available information: x a.b y..." := by
  exact ⟨by decide, by decide, by decide⟩

/-- C9 (amended): with no generative backend the pipeline answers with
`_generate_simple_response` over the similarity-prefixed chunk texts; that
fallback returns the fixed insufficient-information message when no chunks
were retrieved; the truncated ~200-character excerpt of the top-ranked
chunk when no chunk overlaps the query's word set; and otherwise selects
the first chunk attaining the maximal overlap (ties broken by retrieval
order) and returns the first up to 2 of its sentences containing an
overlapping word — falling back to the excerpt in the edge case where no
sentence of that chunk contains an overlapping word. -/
theorem claim_C9_extractive_fallback (query : Str) :
    (∀ (chunks : List RetrievedChunk) (chatHistory : Option Str),
      generateResponse none query chunks chatHistory
        = generateSimpleResponse query (contextTexts chunks)) ∧
    (∀ texts : List Str,
      (texts = [] → generateSimpleResponse query texts =
        chars "I don't have enough information to answer your question.") ∧
      (maxOverlap (wordSet query) texts = 0 → texts ≠ [] →
        generateSimpleResponse query texts =
          chars "Based on the available information: " ++
            (texts.headD []).take 200 ++ chars "...") ∧
      (0 < maxOverlap (wordSet query) texts → texts ≠ [] →
        ∃ best,
          texts.find? (fun c => decide (maxOverlap (wordSet query) texts ≤
            overlapCount (wordSet query) c)) = some best ∧
          overlapCount (wordSet query) best
            = maxOverlap (wordSet query) texts ∧
          generateSimpleResponse query texts =
            (if ((splitRuns isSentEnd best).filter fun s =>
                  0 < overlapCount (wordSet query) s).map pyStrip ≠ [] then
              joinWith [' ']
                ((((splitRuns isSentEnd best).filter fun s =>
                  0 < overlapCount (wordSet query) s).map pyStrip).take 2)
            else
              chars "Based on the available information: " ++
                (texts.headD []).take 200 ++ chars "..."))) :=
  ⟨fun _ _ => rfl, fun texts => generateSimpleResponse_cases query texts⟩

theorem claim_C9_extractive_fallback_witness :
    generateSimpleResponse (chars "qqq") []
      = chars "I don't have enough information to answer your question." ∧
    generateSimpleResponse (chars "alpha beta")
        [chars "gamma alpha extra. delta.", chars "zeta"]
      = chars "gamma alpha extra" := by
  constructor
  · exact (((claim_C9_extractive_fallback (chars "qqq")).2 []).1) rfl
  · have h := (((claim_C9_extractive_fallback (chars "alpha beta")).2
      [chars "gamma alpha extra. delta.", chars "zeta"]).2.2)
      (by decide) (by decide)
    obtain ⟨best, hfind, _, heq⟩ := h
    have hfind2 : ([chars "gamma alpha extra. delta.", chars "zeta"].find?
        (fun c => decide (maxOverlap (wordSet (chars "alpha beta"))
          [chars "gamma alpha extra. delta.", chars "zeta"] ≤
            overlapCount (wordSet (chars "alpha beta")) c)))
        = some (chars "gamma alpha extra. delta.") := by decide
    rw [hfind2] at hfind
    cases hfind
    rw [heq]
    decide

/-- C10: booking-intent detection is substring containment on the
lowercased query, so any query containing one of the ten keywords
anywhere — even inside a longer word such as "time" inside "runtime" —
short-circuits `process_chat_query` to the fixed booking result with an
empty trace: no retrieval is performed. -/
theorem claim_C10_keyword_substring (env : RagEnv) (sid query kw : Str)
    (topK : Nat) (useCitations : Bool) (hkw : kw ∈ bookingKeywords)
    (hsub : containsSub query kw = true) :
    detectBookingIntent query = true ∧
    processChatQuery env sid query topK useCitations
      = (bookingChatResult, env.redis, []) := by
  have hd := detectBookingIntent_of_kw hkw (bookingKeywords_lower kw hkw) hsub
  exact ⟨hd, processChatQuery_booking env sid query topK useCitations hd⟩

theorem claim_C10_keyword_substring_witness :
    (chars "time") ∈ bookingKeywords ∧
    containsSub (chars "What is the runtime cost?") (chars "time") = true ∧
    processChatQuery envEx (chars "s2") (chars "What is the runtime cost?")
        5 true
      = (bookingChatResult, envEx.redis, []) := by
  refine ⟨by decide, by decide, ?_⟩
  exact (claim_C10_keyword_substring envEx (chars "s2")
    (chars "What is the runtime cost?") (chars "time") 5 true
    (by decide) (by decide)).2

end Claims

end PalmMind
